import Mathlib

/-
Verification of the geometric registration engine of the choropleth map
data-extraction frontend.

The embedding covers two source sites:

* `ConusManualAlign.jsx` — the manipulable quadrilateral (rect + rotation),
  its corner/rotation/whole-shape drag updates, the reset action, and the
  similarity-style overlay projection derived from the rotated corners.

* `ConusOverlayPreview` (the four-corner legacy component) — the DLT
  homography solver `computeHomography` (gradient-descent null-space
  iteration seeded by a random vector) and `applyHomography`.

Conventions of the embedding:

* JS numbers are modelled as real numbers (exact arithmetic).
* A rotation angle θ (the component's `rotation` state, in degrees) enters
  the source only through `Math.cos`/`Math.sin` of θ or −θ, so rotations are
  represented by the pair `(c, s) = (cos θ, sin θ)`; `cos (−θ) = c` and
  `sin (−θ) = −s`.  Quantifying over all `(c, s)` with `c*c + s*s = 1`
  quantifies over all rotation angles.
* The source's `Math.atan2(ey, ex)` followed by `Math.cos`/`Math.sin` of the
  result is embedded as `ex / √(ex² + ey²)` and `ey / √(ex² + ey²)`, which is
  exact whenever `(ex, ey) ≠ (0, 0)`.
-/

noncomputable section

namespace ChoroMap

/-- Geographic bounding extent `{xmin, xmax, ymin, ymax}` of the shapefile
data (`shapefileData.bounds`). -/
structure Bounds where
  xmin : ℝ
  xmax : ℝ
  ymin : ℝ
  ymax : ℝ

/-- The manipulable registration rectangle `{x, y, width, height}` in display
coordinates (`rect` state of `ConusManualAlign`). -/
structure Rect where
  x : ℝ
  y : ℝ
  width : ℝ
  height : ℝ

/-- The four rotated corners, in the source's fixed TL, TR, BR, BL order. -/
structure Corners where
  tl : ℝ × ℝ
  tr : ℝ × ℝ
  br : ℝ × ℝ
  bl : ℝ × ℝ

/-- Constant `MIN_SIZE = 40` px, the corner-drag minimum width/height. -/
def MIN_SIZE : ℝ := 40

/-- Function `getRectCenter` from `ConusManualAlign.jsx`. -/
def getRectCenter (r : Rect) : ℝ × ℝ :=
  (r.x + r.width / 2, r.y + r.height / 2)

/-- Function `getRotatedCorners(r, angleDeg)`: the four half-extent corners
`(±w/2, ±h/2)` rotated by the angle (represented by `(c, s)`) and translated
to the rect center. -/
def getRotatedCorners (r : Rect) (c s : ℝ) : Corners :=
  let cx := r.x + r.width / 2
  let cy := r.y + r.height / 2
  { tl := (cx + ((-(r.width / 2)) * c - (-(r.height / 2)) * s),
           cy + ((-(r.width / 2)) * s + (-(r.height / 2)) * c))
    tr := (cx + ((r.width / 2) * c - (-(r.height / 2)) * s),
           cy + ((r.width / 2) * s + (-(r.height / 2)) * c))
    br := (cx + ((r.width / 2) * c - (r.height / 2) * s),
           cy + ((r.width / 2) * s + (r.height / 2) * c))
    bl := (cx + ((-(r.width / 2)) * c - (r.height / 2) * s),
           cy + ((-(r.width / 2)) * s + (r.height / 2) * c)) }

/-- Function `globalToLocal(px, py, r, angleDeg)`: pixel point relative to the rect
center, rotated by `−angleDeg` (so with `(c, s)` for the angle itself the
matrix entries are `cos(−θ) = c`, `sin(−θ) = −s`). -/
def globalToLocal (px py : ℝ) (r : Rect) (c s : ℝ) : ℝ × ℝ :=
  let dx := px - (r.x + r.width / 2)
  let dy := py - (r.y + r.height / 2)
  (dx * c + dy * s, -(dx * s) + dy * c)

/-- Which corner handle is being dragged (`draggingCorner` state). -/
inductive Corner
  | tl
  | tr
  | br
  | bl

/-- The corner of a `Corners` quadruple selected by a `Corner` key. -/
def cornerOf (k : Corner) (q : Corners) : ℝ × ℝ :=
  match k with
  | .tl => q.tl
  | .tr => q.tr
  | .br => q.br
  | .bl => q.bl

/-- The corner diagonally opposite a dragged corner. -/
def oppositeCorner (k : Corner) : Corner :=
  match k with
  | .tl => .br
  | .tr => .bl
  | .br => .tl
  | .bl => .tr

/-- The shared tail of the corner-drag updater: given the adjusted local
bounds `minX/maxX/minY/maxY`, clamp the new size at `MIN_SIZE`, rotate the
new local-frame center offset back into pixel space, add it to the pre-drag
center, and rebuild the rect. -/
def rebuildRect (prev : Rect) (c s minX maxX minY maxY : ℝ) : Rect :=
  let newWidth := max MIN_SIZE (maxX - minX)
  let newHeight := max MIN_SIZE (maxY - minY)
  let newCenterLocalX := (minX + maxX) / 2
  let newCenterLocalY := (minY + maxY) / 2
  let offsetX := newCenterLocalX * c - newCenterLocalY * s
  let offsetY := newCenterLocalX * s + newCenterLocalY * c
  let cx := (getRectCenter prev).1 + offsetX
  let cy := (getRectCenter prev).2 + offsetY
  { x := cx - newWidth / 2
    y := cy - newHeight / 2
    width := newWidth
    height := newHeight }

/-- One frame of the corner-drag `handleMouseMove` of `ConusManualAlign.jsx`:
clamp the pointer to the image box, convert to the rect's local (unrotated)
frame, move the dragged corner's local bound clamped by `MIN_SIZE` (the
`switch` on the dragged corner), then rebuild the rect. -/
def cornerDragMove (imgW imgH : ℝ) (k : Corner) (c s : ℝ) (ex ey : ℝ)
    (prev : Rect) : Rect :=
  let x := max 0 (min imgW ex)
  let y := max 0 (min imgH ey)
  let l := globalToLocal x y prev c s
  match k with
  | .tl => rebuildRect prev c s
      (min l.1 (prev.width / 2 - MIN_SIZE)) (prev.width / 2)
      (min l.2 (prev.height / 2 - MIN_SIZE)) (prev.height / 2)
  | .tr => rebuildRect prev c s
      (-(prev.width / 2)) (max l.1 (-(prev.width / 2) + MIN_SIZE))
      (min l.2 (prev.height / 2 - MIN_SIZE)) (prev.height / 2)
  | .br => rebuildRect prev c s
      (-(prev.width / 2)) (max l.1 (-(prev.width / 2) + MIN_SIZE))
      (-(prev.height / 2)) (max l.2 (-(prev.height / 2) + MIN_SIZE))
  | .bl => rebuildRect prev c s
      (min l.1 (prev.width / 2 - MIN_SIZE)) (prev.width / 2)
      (-(prev.height / 2)) (max l.2 (-(prev.height / 2) + MIN_SIZE))

/-- One recorded corner-drag move event (image box, armed corner, rotation
`(c, s)`, raw pointer position). -/
structure DragStep where
  imgW : ℝ
  imgH : ℝ
  k : Corner
  c : ℝ
  s : ℝ
  ex : ℝ
  ey : ℝ

/-- A finite sequence of corner-drag move events applied in arrival order. -/
def applyDrags (steps : List DragStep) (r : Rect) : Rect :=
  steps.foldl
    (fun acc st => cornerDragMove st.imgW st.imgH st.k st.c st.s st.ex st.ey acc) r

/-- One frame of the whole-shape drag `handleMouseMove`: the new center is
`cursor − offset` (offset recorded at drag start), width/height kept. -/
def shapeDragMove (offsetX offsetY cursorX cursorY : ℝ) (prev : Rect) : Rect :=
  { prev with
    x := (cursorX - offsetX) - prev.width / 2
    y := (cursorY - offsetY) - prev.height / 2 }

/-- The user-drawn initial selection (`initialConusSelection`), in natural
image coordinates. -/
structure Sel where
  x : ℝ
  y : ℝ
  width : ℝ
  height : ℝ

/-- The rect-initialization effect of `ConusManualAlign.jsx`: scale the
user-drawn selection into display space when present, otherwise center a
rectangle with the extent's aspect ratio scaled by
`min(imgW/boundsW, imgH/boundsH) * 0.4`. -/
def initRect (dispW dispH natW natH : ℝ) (sel : Option Sel) (b : Bounds) : Rect :=
  match sel with
  | some sl =>
      let scaleX := dispW / natW
      let scaleY := dispH / natH
      { x := sl.x * scaleX
        y := sl.y * scaleY
        width := sl.width * scaleX
        height := sl.height * scaleY }
  | none =>
      let boundsWidth := b.xmax - b.xmin
      let boundsHeight := b.ymax - b.ymin
      let baseScale := min (dispW / boundsWidth) (dispH / boundsHeight) * 0.4
      let rectWidth := boundsWidth * baseScale
      let rectHeight := boundsHeight * baseScale
      { x := dispW / 2 - rectWidth / 2
        y := dispH / 2 - rectHeight / 2
        width := rectWidth
        height := rectHeight }

/-- The Reset button `onClick` of `ConusManualAlign.jsx`: rebuild the
bounds-derived axis-aligned rectangle from the current image box and the
shapefile bounds (rotation is set back to 0 alongside). -/
def resetRect (dispW dispH : ℝ) (b : Bounds) : Rect :=
  let boundsWidth := b.xmax - b.xmin
  let boundsHeight := b.ymax - b.ymin
  let baseScale := min (dispW / boundsWidth) (dispH / boundsHeight) * 0.4
  let rectWidth := boundsWidth * baseScale
  let rectHeight := boundsHeight * baseScale
  { x := dispW / 2 - rectWidth / 2
    y := dispH / 2 - rectHeight / 2
    width := rectWidth
    height := rectHeight }

/-- The overlay-draw effect's `boundsWidth = bounds.xmax - bounds.xmin || 1`:
a zero width is silently replaced by 1 (JS `||` on a falsy 0). -/
def effBW (b : Bounds) : ℝ :=
  if b.xmax - b.xmin = 0 then 1 else b.xmax - b.xmin

/-- The overlay-draw effect's `boundsHeight = bounds.ymax - bounds.ymin || 1`. -/
def effBH (b : Bounds) : ℝ :=
  if b.ymax - b.ymin = 0 then 1 else b.ymax - b.ymin

/-- The `projectPoint` closure of the overlay-draw effect of
`ConusManualAlign.jsx`, together with the effect's preamble that derives its
parameters from the bounds and the rotated corners: source/destination
centers, the angle of the TL→TR edge (`atan2` then `cos`/`sin`, embedded as
the normalized edge direction), and per-axis scales from the TL→TR and TL→BL
edge lengths.  The projection itself is: translate to the source center,
flip Y, rotate, scale, translate to the destination center. -/
def projectPoint (b : Bounds) (q : Corners) (gx gy : ℝ) : ℝ × ℝ :=
  let srcCenterX := (b.xmin + b.xmax) / 2
  let srcCenterY := (b.ymin + b.ymax) / 2
  let dstCenterX := (q.tl.1 + q.tr.1 + q.br.1 + q.bl.1) / 4
  let dstCenterY := (q.tl.2 + q.tr.2 + q.br.2 + q.bl.2) / 4
  let edge0X := q.tr.1 - q.tl.1
  let edge0Y := q.tr.2 - q.tl.2
  let dstEdge0Length := Real.sqrt (edge0X * edge0X + edge0Y * edge0Y)
  let cosA := edge0X / dstEdge0Length
  let sinA := edge0Y / dstEdge0Length
  let scaleX := dstEdge0Length / effBW b
  let edge1X := q.bl.1 - q.tl.1
  let edge1Y := q.bl.2 - q.tl.2
  let dstEdge1Length := Real.sqrt (edge1X * edge1X + edge1Y * edge1Y)
  let scaleY := dstEdge1Length / effBH b
  let px := gx - srcCenterX
  let py := -(gy - srcCenterY)
  let pxRot := px * cosA - py * sinA
  let pyRot := px * sinA + py * cosA
  (pxRot * scaleX + dstCenterX, pyRot * scaleY + dstCenterY)

/-- A 9-component coefficient vector (flattened 3×3 homography). -/
abbrev Vec9 := Fin 9 → ℝ

/-- A 3×3 homography matrix as returned by `computeHomography`. -/
abbrev Mat3 := Fin 3 → Fin 3 → ℝ

/-- First DLT row pushed per correspondence `(p ↦ q)` in `computeHomography`:
`[x, y, 1, 0, 0, 0, -X*x, -X*y, -X]`. -/
def Arow1 (p q : ℝ × ℝ) : Vec9 :=
  ![p.1, p.2, 1, 0, 0, 0, -(q.1 * p.1), -(q.1 * p.2), -q.1]

/-- Second DLT row pushed per correspondence:
`[0, 0, 0, x, y, 1, -Y*x, -Y*y, -Y]`. -/
def Arow2 (p q : ℝ × ℝ) : Vec9 :=
  ![0, 0, 0, p.1, p.2, 1, -(q.2 * p.1), -(q.2 * p.2), -q.2]

/-- The 8×9 DLT matrix `A` built from the 4 correspondences. -/
def Amat (src4 dst4 : Fin 4 → ℝ × ℝ) : Fin 8 → Vec9 :=
  ![Arow1 (src4 0) (dst4 0), Arow2 (src4 0) (dst4 0),
    Arow1 (src4 1) (dst4 1), Arow2 (src4 1) (dst4 1),
    Arow1 (src4 2) (dst4 2), Arow2 (src4 2) (dst4 2),
    Arow1 (src4 3) (dst4 3), Arow2 (src4 3) (dst4 3)]

/-- Matrix `AtA = A^T * A` (9×9), summed over the 8 rows as in the source's triple
loop. -/
def AtA (src4 dst4 : Fin 4 → ℝ × ℝ) : Fin 9 → Fin 9 → ℝ :=
  fun j k => ∑ i : Fin 8, Amat src4 dst4 i j * Amat src4 dst4 i k

/-- The gradient step `vNew = v - 0.01 * (AtA * v)` of the solver's
fixed-iteration loop.  (The loop also computes `(AtA + εI) * v` into `Av`,
but that value is never used, so it is not modelled.) -/
def gdUpdate (M : Fin 9 → Fin 9 → ℝ) (v : Vec9) : Vec9 :=
  fun i => v i - 0.01 * ∑ j : Fin 9, M i j * v j

/-- Euclidean norm of a 9-vector (`Math.sqrt(v.reduce((s,x) => s + x*x, 0))`). -/
def norm9 (v : Vec9) : ℝ :=
  Real.sqrt (∑ i : Fin 9, v i * v i)

/-- One iteration of the solver loop: gradient step, then break (keep `v`)
if the new norm is below `1e-10`, else renormalize.  Breaking is modelled as
returning `v` unchanged: once the guard fires the loop state never changes
again, so iterating this function 50 times equals the source loop. -/
def homStep (M : Fin 9 → Fin 9 → ℝ) (v : Vec9) : Vec9 :=
  if norm9 (gdUpdate M v) < 1e-10 then v
  else fun i => gdUpdate M v i / norm9 (gdUpdate M v)

/-- Initial normalization `v = v0 / ‖v0‖` of the random start vector. -/
def normalize9 (v : Vec9) : Vec9 :=
  fun i => v i / norm9 v

/-- The solver's loop state after its 50 iterations, as a function of the
correspondences and of the random start vector `v0` (each component of the
source's `v0` is `Math.random() - 0.5`). -/
def finalVec (src4 dst4 : Fin 4 → ℝ × ℝ) (v0 : Vec9) : Vec9 :=
  (homStep (AtA src4 dst4))^[50] (normalize9 v0)

/-- Reshape a 9-vector to the 3×3 matrix `H`. -/
def reshape3 (v : Vec9) : Mat3 :=
  ![![v 0, v 1, v 2], ![v 3, v 4, v 5], ![v 6, v 7, v 8]]

/-- The identity matrix returned by `computeHomography` when
`|H[2][2]| < 1e-10`. -/
def idMat3 : Mat3 :=
  ![![1, 0, 0], ![0, 1, 0], ![0, 0, 1]]

/-- Function `computeHomography(src4, dst4)` of the overlay preview component,
parametrized by the random start vector `v0`: run the 50-iteration
null-space search, reshape to 3×3, and normalize by `H[2][2]` — unless
`|H[2][2]| < 1e-10`, in which case the identity matrix is returned. -/
def computeHomography (src4 dst4 : Fin 4 → ℝ × ℝ) (v0 : Vec9) : Mat3 :=
  let v := finalVec src4 dst4 v0
  if |v 8| < 1e-10 then idMat3
  else fun i j => reshape3 v i j / v 8

/-- Function `applyHomography(x, y, H)`: homogeneous application with the
`|w| < 1e-10` guard returning the point `(0, 0)`. -/
def applyHomography (x y : ℝ) (H : Mat3) : ℝ × ℝ :=
  let w := H 2 0 * x + H 2 1 * y + H 2 2
  if |w| < 1e-10 then (0, 0)
  else ((H 0 0 * x + H 0 1 * y + H 0 2) / w,
        (H 1 0 * x + H 1 1 * y + H 1 2) / w)

/-- Three points are collinear iff the cross product of the two difference
vectors vanishes. -/
def collinear3 (p q r : ℝ × ℝ) : Prop :=
  (q.1 - p.1) * (r.2 - p.2) - (q.2 - p.2) * (r.1 - p.1) = 0

/-- A 4-point set is non-degenerate when no 3 of its points are collinear
(this also rules out coincident points). -/
def noThreeCollinear (pts : Fin 4 → ℝ × ℝ) : Prop :=
  ∀ i j k : Fin 4, i ≠ j → i ≠ k → j ≠ k →
    ¬ collinear3 (pts i) (pts j) (pts k)

lemma rebuildRect_width (prev : Rect) (c s minX maxX minY maxY : ℝ) :
    MIN_SIZE ≤ (rebuildRect prev c s minX maxX minY maxY).width := by
  simp only [rebuildRect]
  exact le_max_left _ _

lemma rebuildRect_height (prev : Rect) (c s minX maxX minY maxY : ℝ) :
    MIN_SIZE ≤ (rebuildRect prev c s minX maxX minY maxY).height := by
  simp only [rebuildRect]
  exact le_max_left _ _

lemma cornerDragMove_min_size (imgW imgH : ℝ) (k : Corner) (c s ex ey : ℝ)
    (prev : Rect) :
    MIN_SIZE ≤ (cornerDragMove imgW imgH k c s ex ey prev).width ∧
    MIN_SIZE ≤ (cornerDragMove imgW imgH k c s ex ey prev).height := by
  cases k <;>
    exact ⟨rebuildRect_width _ _ _ _ _ _ _, rebuildRect_height _ _ _ _ _ _ _⟩

/-- Claim C5: for every initial quadrilateral with `width, height ≥ MIN_SIZE`,
every rotation, and every finite sequence of corner-drag pointer positions
applied through the per-frame corner-resize update, the resulting
quadrilateral satisfies `width ≥ MIN_SIZE` and `height ≥ MIN_SIZE`. -/
theorem corner_drag_min_size_invariant (steps : List DragStep) (r : Rect)
    (hw : MIN_SIZE ≤ r.width) (hh : MIN_SIZE ≤ r.height) :
    MIN_SIZE ≤ (applyDrags steps r).width ∧
    MIN_SIZE ≤ (applyDrags steps r).height := by
  induction steps generalizing r with
  | nil => exact ⟨hw, hh⟩
  | cons st rest ih =>
      have h := cornerDragMove_min_size st.imgW st.imgH st.k st.c st.s st.ex st.ey r
      exact ih _ h.1 h.2

/-- Witness for C5: a concrete 40×60 rect and one concrete drag step. -/
theorem corner_drag_min_size_invariant_witness :
    MIN_SIZE ≤ (applyDrags [⟨800, 600, Corner.tl, 1, 0, 5, 7⟩] ⟨0, 0, 40, 60⟩).width ∧
    MIN_SIZE ≤ (applyDrags [⟨800, 600, Corner.tl, 1, 0, 5, 7⟩] ⟨0, 0, 40, 60⟩).height :=
  corner_drag_min_size_invariant _ _ (by norm_num [MIN_SIZE]) (by norm_num [MIN_SIZE])

lemma rebuildRect_corner_tl (prev : Rect) (c s minX maxX minY maxY : ℝ)
    (hx : MIN_SIZE ≤ maxX - minX) (hy : MIN_SIZE ≤ maxY - minY) :
    (getRotatedCorners (rebuildRect prev c s minX maxX minY maxY) c s).tl =
      ((getRectCenter prev).1 + (minX * c - minY * s),
       (getRectCenter prev).2 + (minX * s + minY * c)) := by
  simp only [rebuildRect, getRotatedCorners, getRectCenter]
  rw [max_eq_right hx, max_eq_right hy]
  simp only [Prod.mk.injEq]
  constructor <;> ring

lemma rebuildRect_corner_tr (prev : Rect) (c s minX maxX minY maxY : ℝ)
    (hx : MIN_SIZE ≤ maxX - minX) (hy : MIN_SIZE ≤ maxY - minY) :
    (getRotatedCorners (rebuildRect prev c s minX maxX minY maxY) c s).tr =
      ((getRectCenter prev).1 + (maxX * c - minY * s),
       (getRectCenter prev).2 + (maxX * s + minY * c)) := by
  simp only [rebuildRect, getRotatedCorners, getRectCenter]
  rw [max_eq_right hx, max_eq_right hy]
  simp only [Prod.mk.injEq]
  constructor <;> ring

lemma rebuildRect_corner_br (prev : Rect) (c s minX maxX minY maxY : ℝ)
    (hx : MIN_SIZE ≤ maxX - minX) (hy : MIN_SIZE ≤ maxY - minY) :
    (getRotatedCorners (rebuildRect prev c s minX maxX minY maxY) c s).br =
      ((getRectCenter prev).1 + (maxX * c - maxY * s),
       (getRectCenter prev).2 + (maxX * s + maxY * c)) := by
  simp only [rebuildRect, getRotatedCorners, getRectCenter]
  rw [max_eq_right hx, max_eq_right hy]
  simp only [Prod.mk.injEq]
  constructor <;> ring

lemma rebuildRect_corner_bl (prev : Rect) (c s minX maxX minY maxY : ℝ)
    (hx : MIN_SIZE ≤ maxX - minX) (hy : MIN_SIZE ≤ maxY - minY) :
    (getRotatedCorners (rebuildRect prev c s minX maxX minY maxY) c s).bl =
      ((getRectCenter prev).1 + (minX * c - maxY * s),
       (getRectCenter prev).2 + (minX * s + maxY * c)) := by
  simp only [rebuildRect, getRotatedCorners, getRectCenter]
  rw [max_eq_right hx, max_eq_right hy]
  simp only [Prod.mk.injEq]
  constructor <;> ring

lemma dragCase_tl (prev : Rect) (c s L1 L2 : ℝ) :
    (getRotatedCorners (rebuildRect prev c s
        (min L1 (prev.width / 2 - MIN_SIZE)) (prev.width / 2)
        (min L2 (prev.height / 2 - MIN_SIZE)) (prev.height / 2)) c s).br =
      (getRotatedCorners prev c s).br := by
  rw [rebuildRect_corner_br prev c s _ _ _ _
    (by linarith [min_le_right L1 (prev.width / 2 - MIN_SIZE)])
    (by linarith [min_le_right L2 (prev.height / 2 - MIN_SIZE)])]
  simp only [getRotatedCorners, getRectCenter, Prod.mk.injEq]

lemma dragCase_tr (prev : Rect) (c s L1 L2 : ℝ) :
    (getRotatedCorners (rebuildRect prev c s
        (-(prev.width / 2)) (max L1 (-(prev.width / 2) + MIN_SIZE))
        (min L2 (prev.height / 2 - MIN_SIZE)) (prev.height / 2)) c s).bl =
      (getRotatedCorners prev c s).bl := by
  rw [rebuildRect_corner_bl prev c s _ _ _ _
    (by linarith [le_max_right L1 (-(prev.width / 2) + MIN_SIZE)])
    (by linarith [min_le_right L2 (prev.height / 2 - MIN_SIZE)])]
  simp only [getRotatedCorners, getRectCenter, Prod.mk.injEq]

lemma dragCase_br (prev : Rect) (c s L1 L2 : ℝ) :
    (getRotatedCorners (rebuildRect prev c s
        (-(prev.width / 2)) (max L1 (-(prev.width / 2) + MIN_SIZE))
        (-(prev.height / 2)) (max L2 (-(prev.height / 2) + MIN_SIZE))) c s).tl =
      (getRotatedCorners prev c s).tl := by
  rw [rebuildRect_corner_tl prev c s _ _ _ _
    (by linarith [le_max_right L1 (-(prev.width / 2) + MIN_SIZE)])
    (by linarith [le_max_right L2 (-(prev.height / 2) + MIN_SIZE)])]
  simp only [getRotatedCorners, getRectCenter, Prod.mk.injEq]

lemma dragCase_bl (prev : Rect) (c s L1 L2 : ℝ) :
    (getRotatedCorners (rebuildRect prev c s
        (min L1 (prev.width / 2 - MIN_SIZE)) (prev.width / 2)
        (-(prev.height / 2)) (max L2 (-(prev.height / 2) + MIN_SIZE))) c s).tr =
      (getRotatedCorners prev c s).tr := by
  rw [rebuildRect_corner_tr prev c s _ _ _ _
    (by linarith [min_le_right L1 (prev.width / 2 - MIN_SIZE)])
    (by linarith [le_max_right L2 (-(prev.height / 2) + MIN_SIZE)])]
  simp only [getRotatedCorners, getRectCenter, Prod.mk.injEq]

/-- Claim C6: each per-frame corner-resize update leaves the pixel position
of the corner opposite the dragged corner unchanged, for every pointer
position, every rotation, and every prior quadrilateral state. -/
theorem corner_drag_opposite_corner_fixed (imgW imgH : ℝ) (k : Corner)
    (c s ex ey : ℝ) (prev : Rect) :
    cornerOf (oppositeCorner k)
        (getRotatedCorners (cornerDragMove imgW imgH k c s ex ey prev) c s) =
      cornerOf (oppositeCorner k) (getRotatedCorners prev c s) := by
  cases k
  case tl =>
    simp only [cornerDragMove, oppositeCorner, cornerOf]
    exact dragCase_tl prev c s _ _
  case tr =>
    simp only [cornerDragMove, oppositeCorner, cornerOf]
    exact dragCase_tr prev c s _ _
  case br =>
    simp only [cornerDragMove, oppositeCorner, cornerOf]
    exact dragCase_br prev c s _ _
  case bl =>
    simp only [cornerDragMove, oppositeCorner, cornerOf]
    exact dragCase_bl prev c s _ _

/-- Claim C7: each whole-shape drag frame sets the center to
`cursor − offset` with no clamping, keeps `width`/`height` (rotation state
is untouched by this handler), and translates all four corners by exactly
the center displacement vector. -/
theorem whole_shape_drag_translates (offsetX offsetY cursorX cursorY c s : ℝ)
    (prev : Rect) :
    getRectCenter (shapeDragMove offsetX offsetY cursorX cursorY prev)
      = (cursorX - offsetX, cursorY - offsetY) ∧
    (shapeDragMove offsetX offsetY cursorX cursorY prev).width = prev.width ∧
    (shapeDragMove offsetX offsetY cursorX cursorY prev).height = prev.height ∧
    (getRotatedCorners (shapeDragMove offsetX offsetY cursorX cursorY prev) c s).tl
      = ((getRotatedCorners prev c s).tl.1 + ((cursorX - offsetX) - (getRectCenter prev).1),
         (getRotatedCorners prev c s).tl.2 + ((cursorY - offsetY) - (getRectCenter prev).2)) ∧
    (getRotatedCorners (shapeDragMove offsetX offsetY cursorX cursorY prev) c s).tr
      = ((getRotatedCorners prev c s).tr.1 + ((cursorX - offsetX) - (getRectCenter prev).1),
         (getRotatedCorners prev c s).tr.2 + ((cursorY - offsetY) - (getRectCenter prev).2)) ∧
    (getRotatedCorners (shapeDragMove offsetX offsetY cursorX cursorY prev) c s).br
      = ((getRotatedCorners prev c s).br.1 + ((cursorX - offsetX) - (getRectCenter prev).1),
         (getRotatedCorners prev c s).br.2 + ((cursorY - offsetY) - (getRectCenter prev).2)) ∧
    (getRotatedCorners (shapeDragMove offsetX offsetY cursorX cursorY prev) c s).bl
      = ((getRotatedCorners prev c s).bl.1 + ((cursorX - offsetX) - (getRectCenter prev).1),
         (getRotatedCorners prev c s).bl.2 + ((cursorY - offsetY) - (getRectCenter prev).2)) := by
  refine ⟨?_, rfl, rfl, ?_, ?_, ?_, ?_⟩ <;>
  · simp only [shapeDragMove, getRotatedCorners, getRectCenter, Prod.mk.injEq]
    constructor <;> ring

/-- Claim C8 (amended): the reset action rebuilds exactly the bounds-derived
(extent-aspect-ratio) seeded rectangle with rotation 0, regardless of the
current mutated state — it does not read the quadrilateral state at all, so
it restores the seed only when the session was seeded from the extent
fallback; a user-drawn seed is not restored (see the counterexample). -/
theorem reset_restores_bounds_seeded_rect (dispW dispH natW natH : ℝ)
    (b : Bounds) :
    resetRect dispW dispH b = initRect dispW dispH natW natH none b ∧
    getRotatedCorners (resetRect dispW dispH b) 1 0 =
      getRotatedCorners (initRect dispW dispH natW natH none b) 1 0 :=
  ⟨rfl, rfl⟩

/-- The user-drawn seed selection used in the C8 counterexample. -/
def selC8 : Sel := ⟨0, 0, 200, 100⟩

/-- The extent used in the C8 counterexample. -/
def bC8 : Bounds := ⟨0, 100, 0, 50⟩

/-- Counterexample to claim C8: in a session seeded from the user-drawn
rectangle (display 800×600, natural 1600×1200), the reset action yields
corners different from the seeded corners: reset rebuilds the bounds-derived
rectangle instead of restoring the user-drawn seed. -/
theorem reset_does_not_restore_user_drawn_seed :
    getRotatedCorners (resetRect 800 600 bC8) 1 0 ≠
      getRotatedCorners (initRect 800 600 1600 1200 (some selC8) bC8) 1 0 := by
  intro h
  have h1 := congrArg Corners.tl h
  simp only [resetRect, initRect, getRotatedCorners, selC8, bC8, min_def] at h1
  norm_num at h1

lemma sqrt_num_2500 : Real.sqrt 2500 = 50 := by
  rw [show (2500 : ℝ) = 50 ^ 2 by norm_num]
  exact Real.sqrt_sq (by norm_num)

lemma sqrt_num_10000 : Real.sqrt 10000 = 100 := by
  rw [show (10000 : ℝ) = 100 ^ 2 by norm_num]
  exact Real.sqrt_sq (by norm_num)

/-- Claim C9 (amended): when the externally supplied extent has zero width,
the overlay draw does not fail and is not blocked: the `|| 1` fallback
silently substitutes width 1, so projection proceeds exactly as for an
extent of width 1 with the same center (and symmetrically for the height).
No `InvalidExtent` error exists in the code. -/
theorem zero_width_extent_projects_as_unit_width (x0 y0 y1 : ℝ) (q : Corners)
    (gx gy : ℝ) :
    projectPoint ⟨x0, x0, y0, y1⟩ q gx gy =
      projectPoint ⟨x0 - 1/2, x0 + 1/2, y0, y1⟩ q gx gy := by
  have hbw1 : effBW ⟨x0, x0, y0, y1⟩ = 1 := by
    simp [effBW]
  have hbw2 : effBW ⟨x0 - 1/2, x0 + 1/2, y0, y1⟩ = 1 := by
    simp only [effBW]
    rw [if_neg (by intro hcon; linarith)]
    ring
  have hbh : effBH ⟨x0 - 1/2, x0 + 1/2, y0, y1⟩ = effBH ⟨x0, x0, y0, y1⟩ := rfl
  simp only [projectPoint]
  rw [hbw1, hbw2, hbh]
  simp only [Prod.mk.injEq]
  constructor <;> ring

/-- The zero-width extent of the C9 counterexample. -/
def bZero : Bounds := ⟨5, 5, 0, 50⟩

/-- The quadrilateral state of the C9 counterexample. -/
def rectC9 : Rect := ⟨150, 125, 100, 50⟩

/-- Counterexample to claim C9: with a zero-width extent (`xmax = xmin = 5`)
the overlay projection is not blocked by any `InvalidExtent` error: it
proceeds with the silently substituted width 1 and returns a concrete pixel
for the geo point `(5, 50)`. -/
theorem zero_width_extent_projection_proceeds :
    bZero.xmax - bZero.xmin = 0 ∧
    projectPoint bZero (getRotatedCorners rectC9 1 0) 5 50 = (200, 125) := by
  constructor
  · norm_num [bZero]
  · simp only [projectPoint, effBW, effBH, bZero, rectC9, getRotatedCorners]
    norm_num [sqrt_num_2500, sqrt_num_10000]

lemma corners_edge0X (r : Rect) (c s : ℝ) :
    (getRotatedCorners r c s).tr.1 - (getRotatedCorners r c s).tl.1 =
      r.width * c := by
  simp only [getRotatedCorners]
  ring

lemma corners_edge0Y (r : Rect) (c s : ℝ) :
    (getRotatedCorners r c s).tr.2 - (getRotatedCorners r c s).tl.2 =
      r.width * s := by
  simp only [getRotatedCorners]
  ring

lemma corners_edge1X (r : Rect) (c s : ℝ) :
    (getRotatedCorners r c s).bl.1 - (getRotatedCorners r c s).tl.1 =
      -(r.height * s) := by
  simp only [getRotatedCorners]
  ring

lemma corners_edge1Y (r : Rect) (c s : ℝ) :
    (getRotatedCorners r c s).bl.2 - (getRotatedCorners r c s).tl.2 =
      r.height * c := by
  simp only [getRotatedCorners]
  ring

lemma corners_avgX (r : Rect) (c s : ℝ) :
    ((getRotatedCorners r c s).tl.1 + (getRotatedCorners r c s).tr.1 +
        (getRotatedCorners r c s).br.1 + (getRotatedCorners r c s).bl.1) / 4 =
      r.x + r.width / 2 := by
  simp only [getRotatedCorners]
  ring

lemma corners_avgY (r : Rect) (c s : ℝ) :
    ((getRotatedCorners r c s).tl.2 + (getRotatedCorners r c s).tr.2 +
        (getRotatedCorners r c s).br.2 + (getRotatedCorners r c s).bl.2) / 4 =
      r.y + r.height / 2 := by
  simp only [getRotatedCorners]
  ring

lemma len_edge0 (w c s : ℝ) (hw : 0 ≤ w) (hcs : c * c + s * s = 1) :
    Real.sqrt (w * c * (w * c) + w * s * (w * s)) = w := by
  rw [show w * c * (w * c) + w * s * (w * s) = w ^ 2 by
    linear_combination (w ^ 2) * hcs]
  exact Real.sqrt_sq hw

lemma len_edge1 (h c s : ℝ) (hh : 0 ≤ h) (hcs : c * c + s * s = 1) :
    Real.sqrt (-(h * s) * -(h * s) + h * c * (h * c)) = h := by
  rw [show -(h * s) * -(h * s) + h * c * (h * c) = h ^ 2 by
    linear_combination (h ^ 2) * hcs]
  exact Real.sqrt_sq hh

/-- Closed form of the overlay projection when the corners come from
`getRotatedCorners`: the derived angle is exactly `(c, s)`, the derived
scales reduce to `width / boundsW` and `height / boundsH`, and the
destination center is the rect center. -/
lemma projectPoint_closed (b : Bounds) (r : Rect) (c s : ℝ)
    (hbw : 0 < b.xmax - b.xmin) (hbh : 0 < b.ymax - b.ymin)
    (hw : 0 < r.width) (hh : 0 < r.height)
    (hcs : c * c + s * s = 1) (gx gy : ℝ) :
    projectPoint b (getRotatedCorners r c s) gx gy =
      (((gx - (b.xmin + b.xmax) / 2) * c - (-(gy - (b.ymin + b.ymax) / 2)) * s)
          * (r.width / (b.xmax - b.xmin)) + (r.x + r.width / 2),
       ((gx - (b.xmin + b.xmax) / 2) * s + (-(gy - (b.ymin + b.ymax) / 2)) * c)
          * (r.height / (b.ymax - b.ymin)) + (r.y + r.height / 2)) := by
  have hbwe : effBW b = b.xmax - b.xmin := by
    rw [effBW, if_neg hbw.ne']
  have hbhe : effBH b = b.ymax - b.ymin := by
    rw [effBH, if_neg hbh.ne']
  simp only [projectPoint]
  rw [corners_edge0X, corners_edge0Y, corners_edge1X, corners_edge1Y,
    corners_avgX, corners_avgY, len_edge0 r.width c s hw.le hcs,
    len_edge1 r.height c s hh.le hcs, hbwe, hbhe]
  simp only [Prod.mk.injEq]
  constructor <;>
  · field_simp

/-- Counterexample extent for C1 (width 100, height 50). -/
def bCex : Bounds := ⟨0, 100, 0, 50⟩

/-- Counterexample quadrilateral for C1: a 50×50 square centered at
`(200, 150)` — aspect ratio different from the extent's. -/
def rCex : Rect := ⟨175, 125, 50, 50⟩

/-- Counterexample to claim C1: with the extent `{0,100,0,50}`, the 50×50
quadrilateral centered at `(200,150)` and rotation 90° (`(c,s) = (0,1)`),
the extent's TL corner `(0,50)` does not project onto the quadrilateral's TL
corner: the code scales after rotating, which is only a similarity when
`scaleX = scaleY` or the rotation is axis-aligned. -/
theorem projectPoint_corner_mismatch_rot90 :
    projectPoint bCex (getRotatedCorners rCex 0 1) 0 50 ≠
      (getRotatedCorners rCex 0 1).tl := by
  rw [projectPoint_closed bCex rCex 0 1 (by norm_num [bCex]) (by norm_num [bCex])
    (by norm_num [rCex]) (by norm_num [rCex]) (by norm_num)]
  intro h
  have h1 := congrArg Prod.fst h
  simp only [getRotatedCorners, rCex, bCex] at h1
  norm_num at h1

set_option maxHeartbeats 1600000 in
/-- Claim C1 (amended): the four extent corners map exactly onto the four
quadrilateral corners whenever the rotation is axis-aligned (`s = 0`) or the
quadrilateral has the extent's aspect ratio (`scaleX = scaleY`); for other
rotations with unequal axis scales the code's rotate-then-scale order breaks
exactness (see the counterexample). -/
theorem projectPoint_corners_exact (b : Bounds) (r : Rect) (c s : ℝ)
    (hbw : 0 < b.xmax - b.xmin) (hbh : 0 < b.ymax - b.ymin)
    (hw : MIN_SIZE ≤ r.width) (hh : MIN_SIZE ≤ r.height)
    (hcs : c * c + s * s = 1)
    (hkey : s = 0 ∨ r.width * (b.ymax - b.ymin) = r.height * (b.xmax - b.xmin)) :
    projectPoint b (getRotatedCorners r c s) b.xmin b.ymax =
      (getRotatedCorners r c s).tl ∧
    projectPoint b (getRotatedCorners r c s) b.xmax b.ymax =
      (getRotatedCorners r c s).tr ∧
    projectPoint b (getRotatedCorners r c s) b.xmax b.ymin =
      (getRotatedCorners r c s).br ∧
    projectPoint b (getRotatedCorners r c s) b.xmin b.ymin =
      (getRotatedCorners r c s).bl := by
  have hw0 : 0 < r.width := lt_of_lt_of_le (by norm_num [MIN_SIZE]) hw
  have hh0 : 0 < r.height := lt_of_lt_of_le (by norm_num [MIN_SIZE]) hh
  refine ⟨?_, ?_, ?_, ?_⟩ <;>
  · rw [projectPoint_closed b r c s hbw hbh hw0 hh0 hcs]
    simp only [getRotatedCorners, Prod.mk.injEq]
    rcases hkey with hs | ha
    · subst hs
      constructor <;> (field_simp [hbw.ne', hbh.ne']; try ring)
    · have hht : r.height = r.width * (b.ymax - b.ymin) / (b.xmax - b.xmin) := by
        field_simp
        linarith [ha]
      rw [hht]
      constructor <;> (field_simp [hbw.ne', hbh.ne']; try ring)

/-- Witness for C1 (amended), at the spec's own scenario: extent
`{0,100,0,50}`, quad center `(200,150)`, size 100×50, rotation 0 — the geo
corner `(0,50)` lands on the quad corner `(150,125)` etc. -/
theorem projectPoint_corners_exact_witness :
    projectPoint ⟨0, 100, 0, 50⟩ (getRotatedCorners ⟨150, 125, 100, 50⟩ 1 0) 0 50 =
      (getRotatedCorners ⟨150, 125, 100, 50⟩ 1 0).tl :=
  (projectPoint_corners_exact ⟨0, 100, 0, 50⟩ ⟨150, 125, 100, 50⟩ 1 0
    (by norm_num) (by norm_num) (by norm_num [MIN_SIZE]) (by norm_num [MIN_SIZE])
    (by norm_num) (Or.inl rfl)).1

open Matrix in
@[simp]
lemma cons_val_five {α : Type} {m : ℕ} (x : α)
    (u : Fin m.succ.succ.succ.succ.succ → α) :
    vecCons x u 5 = vecHead (vecTail (vecTail (vecTail (vecTail u)))) :=
  rfl

open Matrix in
@[simp]
lemma cons_val_six {α : Type} {m : ℕ} (x : α)
    (u : Fin m.succ.succ.succ.succ.succ.succ → α) :
    vecCons x u 6 = vecHead (vecTail (vecTail (vecTail (vecTail (vecTail u))))) :=
  rfl

open Matrix in
@[simp]
lemma cons_val_seven {α : Type} {m : ℕ} (x : α)
    (u : Fin m.succ.succ.succ.succ.succ.succ.succ → α) :
    vecCons x u 7 =
      vecHead (vecTail (vecTail (vecTail (vecTail (vecTail (vecTail u)))))) :=
  rfl

open Matrix in
@[simp]
lemma cons_val_eight {α : Type} {m : ℕ} (x : α)
    (u : Fin m.succ.succ.succ.succ.succ.succ.succ.succ → α) :
    vecCons x u 8 =
      vecHead (vecTail (vecTail (vecTail (vecTail (vecTail (vecTail (vecTail u))))))) :=
  rfl

/-- Non-degenerate source correspondence points: the corners of the square
`(±1, ±1)`. -/
def srcQ : Fin 4 → ℝ × ℝ := ![(1, 1), (-1, 1), (-1, -1), (1, -1)]

/-- Non-degenerate destination correspondence points (the image of `srcQ`
under the affine map `X = 2y`, `Y = 2x + 2y + 6`). -/
def dstQ : Fin 4 → ℝ × ℝ := ![(2, 10), (2, 6), (-2, 2), (-2, 6)]

/-- Degenerate source correspondence points: all four coincide at `(0,0)`. -/
def srcD : Fin 4 → ℝ × ℝ := ![(0, 0), (0, 0), (0, 0), (0, 0)]

/-- Degenerate destination correspondence points: all four coincide. -/
def dstD : Fin 4 → ℝ × ℝ := ![(0, 0), (0, 0), (0, 0), (0, 0)]

/-- The basis vector picked out by the start vector `v0A`. -/
def e0v : Vec9 := ![1, 0, 0, 0, 0, 0, 0, 0, 0]

/-- The basis vector picked out by the start vector `v0E2`. -/
def e2v : Vec9 := ![0, 0, 1, 0, 0, 0, 0, 0, 0]

/-- The basis vector picked out by the start vector `v0E8`. -/
def e8v : Vec9 := ![0, 0, 0, 0, 0, 0, 0, 0, 1]

/-- The exact homography `srcQ → dstQ`, flattened (a null vector of the DLT
system for `(srcQ, dstQ)`). -/
def hvec : Vec9 := ![0, 2, 0, 2, 2, 6, 0, 0, 1]

/-- Vector `hvec` scaled to unit Euclidean norm (`‖hvec‖ = 7`). -/
def uBv : Vec9 := ![0, 2/7, 0, 2/7, 2/7, 6/7, 0, 0, 1/7]

/-- A concrete admissible random start vector (all components in
`(-0.5, 0.5)`): `0.4` times `e0v`. -/
def v0A : Vec9 := ![0.4, 0, 0, 0, 0, 0, 0, 0, 0]

/-- A second admissible random start vector: `hvec / 20`. -/
def v0B : Vec9 := ![0, 0.1, 0, 0.1, 0.1, 0.3, 0, 0, 0.05]

/-- An admissible random start vector selecting `e2v`. -/
def v0E2 : Vec9 := ![0, 0, 0.4, 0, 0, 0, 0, 0, 0]

/-- An admissible random start vector selecting `e8v`. -/
def v0E8 : Vec9 := ![0, 0, 0, 0, 0, 0, 0, 0, 0.4]

lemma dot_e0 (f : Vec9) : (∑ j : Fin 9, f j * e0v j) = f 0 := by
  simp [e0v, Fin.sum_univ_succ]

lemma dot_e2 (f : Vec9) : (∑ j : Fin 9, f j * e2v j) = f 2 := by
  simp [e2v, Fin.sum_univ_succ]

lemma dot_e8 (f : Vec9) : (∑ j : Fin 9, f j * e8v j) = f 8 := by
  simp [e8v, Fin.sum_univ_succ]
  rfl

/-- Exchange the summation order in `AtA * v`: it is the row-space
combination `∑ r, A r i * (A r · v)`. -/
lemma AtA_dot (src4 dst4 : Fin 4 → ℝ × ℝ) (v : Vec9) (i : Fin 9) :
    (∑ j : Fin 9, AtA src4 dst4 i j * v j) =
      ∑ r : Fin 8, Amat src4 dst4 r i * (∑ j : Fin 9, Amat src4 dst4 r j * v j) := by
  simp only [AtA, Finset.sum_mul, Finset.mul_sum]
  rw [Finset.sum_comm]
  refine Finset.sum_congr rfl fun r _ => Finset.sum_congr rfl fun j _ => by ring

/-- An eigenvector of `AtA` with eigenvalue `lam < 100` and unit norm is an
exact fixed point of the solver iteration: the gradient step scales it by
`1 - 0.01 * lam` and the renormalization scales it back. -/
lemma homStep_eigen_fixed {M : Fin 9 → Fin 9 → ℝ} {v : Vec9} {lam : ℝ}
    (heig : ∀ i, (∑ j : Fin 9, M i j * v j) = lam * v i)
    (hnorm : (∑ i : Fin 9, v i * v i) = 1)
    (hlam : 1e-10 ≤ 1 - 0.01 * lam) :
    homStep M v = v := by
  have hfac0 : (0 : ℝ) < 1 - 0.01 * lam := lt_of_lt_of_le (by norm_num) hlam
  have hgd : gdUpdate M v = fun i => (1 - 0.01 * lam) * v i := by
    funext i
    simp only [gdUpdate]
    rw [heig i]
    ring
  have hnn : norm9 (gdUpdate M v) = 1 - 0.01 * lam := by
    rw [hgd]
    simp only [norm9]
    have hsum : (∑ i : Fin 9, (1 - 0.01 * lam) * v i * ((1 - 0.01 * lam) * v i))
        = (1 - 0.01 * lam) ^ 2 := by
      calc (∑ i : Fin 9, (1 - 0.01 * lam) * v i * ((1 - 0.01 * lam) * v i))
          = (1 - 0.01 * lam) ^ 2 * ∑ i : Fin 9, v i * v i := by
            rw [Finset.mul_sum]
            exact Finset.sum_congr rfl fun i _ => by ring
        _ = (1 - 0.01 * lam) ^ 2 := by rw [hnorm, mul_one]
    rw [hsum, Real.sqrt_sq hfac0.le]
  simp only [homStep, hnn]
  rw [if_neg (not_lt.mpr hlam)]
  funext i
  simp only [hgd]
  field_simp

lemma eigenQ_e0 : ∀ i, (∑ j : Fin 9, AtA srcQ dstQ i j * e0v j) = 4 * e0v i := by
  intro i
  rw [AtA_dot]
  simp only [dot_e0]
  fin_cases i <;>
    norm_num [Amat, Arow1, Arow2, srcQ, dstQ, e0v, Fin.sum_univ_succ]

lemma eigenD_e2 : ∀ i, (∑ j : Fin 9, AtA srcD dstD i j * e2v j) = 4 * e2v i := by
  intro i
  rw [AtA_dot]
  simp only [dot_e2]
  fin_cases i <;>
    norm_num [Amat, Arow1, Arow2, srcD, dstD, e2v, Fin.sum_univ_succ]

lemma eigenD_e8 : ∀ i, (∑ j : Fin 9, AtA srcD dstD i j * e8v j) = 0 * e8v i := by
  intro i
  rw [AtA_dot]
  simp only [dot_e8]
  fin_cases i <;>
    norm_num [Amat, Arow1, Arow2, srcD, dstD, e8v, Fin.sum_univ_succ]

lemma rowsQ_uB :
    ∀ r : Fin 8, (∑ j : Fin 9, Amat srcQ dstQ r j * uBv j) = 0 := by
  intro r
  fin_cases r <;>
    norm_num [Amat, Arow1, Arow2, srcQ, dstQ, uBv, Fin.sum_univ_succ]

lemma eigenQ_uB : ∀ i, (∑ j : Fin 9, AtA srcQ dstQ i j * uBv j) = 0 * uBv i := by
  intro i
  rw [AtA_dot]
  simp [rowsQ_uB]

lemma sum_sq_e0 : (∑ i : Fin 9, e0v i * e0v i) = 1 := by
  norm_num [e0v, Fin.sum_univ_succ]

lemma sum_sq_e2 : (∑ i : Fin 9, e2v i * e2v i) = 1 := by
  norm_num [e2v, Fin.sum_univ_succ]

lemma sum_sq_e8 : (∑ i : Fin 9, e8v i * e8v i) = 1 := by
  norm_num [e8v, Fin.sum_univ_succ]

lemma sum_sq_uB : (∑ i : Fin 9, uBv i * uBv i) = 1 := by
  norm_num [uBv, Fin.sum_univ_succ]

lemma norm9_v0A : norm9 v0A = 0.4 := by
  have h : (∑ i : Fin 9, v0A i * v0A i) = 0.16 := by
    norm_num [v0A, Fin.sum_univ_succ]
  rw [norm9, h, show (0.16 : ℝ) = 0.4 ^ 2 by norm_num,
    Real.sqrt_sq (by norm_num : (0 : ℝ) ≤ 0.4)]

lemma norm9_v0E2 : norm9 v0E2 = 0.4 := by
  have h : (∑ i : Fin 9, v0E2 i * v0E2 i) = 0.16 := by
    norm_num [v0E2, Fin.sum_univ_succ]
  rw [norm9, h, show (0.16 : ℝ) = 0.4 ^ 2 by norm_num,
    Real.sqrt_sq (by norm_num : (0 : ℝ) ≤ 0.4)]

lemma norm9_v0E8 : norm9 v0E8 = 0.4 := by
  have h : (∑ i : Fin 9, v0E8 i * v0E8 i) = 0.16 := by
    norm_num [v0E8, Fin.sum_univ_succ]
  rw [norm9, h, show (0.16 : ℝ) = 0.4 ^ 2 by norm_num,
    Real.sqrt_sq (by norm_num : (0 : ℝ) ≤ 0.4)]

lemma norm9_v0B : norm9 v0B = 0.35 := by
  have h : (∑ i : Fin 9, v0B i * v0B i) = 0.1225 := by
    norm_num [v0B, Fin.sum_univ_succ]
  rw [norm9, h, show (0.1225 : ℝ) = 0.35 ^ 2 by norm_num,
    Real.sqrt_sq (by norm_num : (0 : ℝ) ≤ 0.35)]

lemma normalize9_v0A : normalize9 v0A = e0v := by
  funext i
  simp only [normalize9, norm9_v0A]
  fin_cases i <;> norm_num [v0A, e0v]

lemma normalize9_v0E2 : normalize9 v0E2 = e2v := by
  funext i
  simp only [normalize9, norm9_v0E2]
  fin_cases i <;> norm_num [v0E2, e2v]

lemma normalize9_v0E8 : normalize9 v0E8 = e8v := by
  funext i
  simp only [normalize9, norm9_v0E8]
  fin_cases i <;> norm_num [v0E8, e8v]

lemma normalize9_v0B : normalize9 v0B = uBv := by
  funext i
  simp only [normalize9, norm9_v0B]
  fin_cases i <;> norm_num [v0B, uBv]

lemma finalVec_Q_v0A : finalVec srcQ dstQ v0A = e0v := by
  rw [finalVec, normalize9_v0A]
  exact Function.iterate_fixed
    (homStep_eigen_fixed eigenQ_e0 sum_sq_e0 (by norm_num)) 50

lemma finalVec_Q_v0B : finalVec srcQ dstQ v0B = uBv := by
  rw [finalVec, normalize9_v0B]
  exact Function.iterate_fixed
    (homStep_eigen_fixed eigenQ_uB sum_sq_uB (by norm_num)) 50

lemma finalVec_D_v0E2 : finalVec srcD dstD v0E2 = e2v := by
  rw [finalVec, normalize9_v0E2]
  exact Function.iterate_fixed
    (homStep_eigen_fixed eigenD_e2 sum_sq_e2 (by norm_num)) 50

lemma finalVec_D_v0E8 : finalVec srcD dstD v0E8 = e8v := by
  rw [finalVec, normalize9_v0E8]
  exact Function.iterate_fixed
    (homStep_eigen_fixed eigenD_e8 sum_sq_e8 (by norm_num)) 50

lemma noColl_srcQ : noThreeCollinear srcQ := by
  intro i j k hij hik hjk
  fin_cases i <;> fin_cases j <;> fin_cases k <;>
    first
      | exact absurd rfl hij
      | exact absurd rfl hik
      | exact absurd rfl hjk
      | norm_num [collinear3, srcQ]

lemma noColl_dstQ : noThreeCollinear dstQ := by
  intro i j k hij hik hjk
  fin_cases i <;> fin_cases j <;> fin_cases k <;>
    first
      | exact absurd rfl hij
      | exact absurd rfl hik
      | exact absurd rfl hjk
      | norm_num [collinear3, dstQ]

lemma computeH_Q_v0A : computeHomography srcQ dstQ v0A = idMat3 := by
  simp only [computeHomography, finalVec_Q_v0A]
  rw [if_pos (by norm_num [e0v])]

lemma computeH_Q_v0B : computeHomography srcQ dstQ v0B = reshape3 hvec := by
  simp only [computeHomography, finalVec_Q_v0B]
  rw [if_neg (by norm_num [uBv, abs_of_nonneg])]
  funext i j
  fin_cases i <;> fin_cases j <;> norm_num [reshape3, uBv, hvec]

lemma applyH_idMat3 : applyHomography 1 1 idMat3 = (1, 1) := by
  simp only [applyHomography]
  rw [show idMat3 2 0 = 0 from rfl, show idMat3 2 1 = 0 from rfl,
    show idMat3 2 2 = 1 from rfl, show idMat3 0 0 = 1 from rfl,
    show idMat3 0 1 = 0 from rfl, show idMat3 0 2 = 0 from rfl,
    show idMat3 1 0 = 0 from rfl, show idMat3 1 1 = 1 from rfl,
    show idMat3 1 2 = 0 from rfl]
  norm_num

/-- Claim C3 (amended): whenever the homogeneous denominator satisfies
`|w| < 1e-10`, `applyHomography` returns the sentinel pixel `(0, 0)` — the
projection is not reported as undefined, and `(0, 0)` is exactly the
stand-in value the spec forbids. -/
theorem applyHomography_degenerate_returns_origin (x y : ℝ) (H : Mat3)
    (hw : |H 2 0 * x + H 2 1 * y + H 2 2| < 1e-10) :
    applyHomography x y H = (0, 0) := by
  simp only [applyHomography]
  rw [if_pos hw]

/-- A projective matrix with zero bottom row: every point has `w = 0`. -/
def Hdeg : Mat3 := ![![1, 0, 0], ![0, 1, 0], ![0, 0, 0]]

lemma Hdeg_w : Hdeg 2 0 * 5 + Hdeg 2 1 * 7 + Hdeg 2 2 = 0 := by
  rw [show Hdeg 2 0 = 0 from rfl, show Hdeg 2 1 = 0 from rfl,
    show Hdeg 2 2 = 0 from rfl]
  ring

/-- Witness for C3 (amended) at the concrete input `(5, 7)` and `Hdeg`. -/
theorem applyHomography_degenerate_returns_origin_witness :
    applyHomography 5 7 Hdeg = (0, 0) :=
  applyHomography_degenerate_returns_origin 5 7 Hdeg (by rw [Hdeg_w]; norm_num)

/-- Counterexample to claim C3: at the point `(5, 7)` under `Hdeg` the
denominator is `w = 0` (so `|w| < 1e-10`), yet the code does return a pixel
coordinate, namely `(0, 0)` — no undefined signal exists. -/
theorem applyHomography_emits_origin_for_zero_w :
    |Hdeg 2 0 * 5 + Hdeg 2 1 * 7 + Hdeg 2 2| < 1e-10 ∧
    applyHomography 5 7 Hdeg = (0, 0) := by
  constructor
  · rw [Hdeg_w]
    norm_num
  · simp only [applyHomography]
    rw [if_pos (by rw [Hdeg_w]; norm_num)]

/-- Claim C2 (amended): the solver never reports an error of any kind; when
the near-zero normalization check `|H[2][2]| < 1e-10` fires it silently
returns the identity matrix in place of the degenerate solution. -/
theorem computeHomography_degenerate_returns_identity
    (src4 dst4 : Fin 4 → ℝ × ℝ) (v0 : Vec9)
    (hdeg : |finalVec src4 dst4 v0 8| < 1e-10) :
    computeHomography src4 dst4 v0 = idMat3 := by
  simp only [computeHomography]
  rw [if_pos hdeg]

/-- Witness for C2 (amended): the all-coincident degenerate correspondence
set with the admissible start vector `v0E2` makes the check fire, and the
identity matrix is returned. -/
theorem computeHomography_degenerate_returns_identity_witness :
    computeHomography srcD dstD v0E2 = idMat3 :=
  computeHomography_degenerate_returns_identity srcD dstD v0E2
    (by rw [finalVec_D_v0E2]; norm_num [e2v])

/-- Counterexample to claim C2: for the fully degenerate correspondence set
(all four points coincide) and the admissible start vector `v0E8`, the
near-zero check does not even fire (`|H[2][2]| = 1`), and the solver returns
a matrix — no `DegenerateCorrespondenceError` is reported on any path. -/
theorem computeHomography_degenerate_returns_matrix :
    (∀ i j : Fin 4, srcD i = srcD j ∧ dstD i = dstD j) ∧
    1e-10 ≤ |finalVec srcD dstD v0E8 8| ∧
    computeHomography srcD dstD v0E8 = reshape3 e8v := by
  refine ⟨?_, ?_, ?_⟩
  · intro i j
    constructor <;> (fin_cases i <;> fin_cases j <;> rfl)
  · rw [finalVec_D_v0E8]
    norm_num [e8v]
  · simp only [computeHomography, finalVec_D_v0E8]
    rw [if_neg (by norm_num [e8v])]
    funext i j
    fin_cases i <;> fin_cases j <;> norm_num [reshape3, e8v]

/-- Claim C4: with the non-degenerate correspondences `(srcQ, dstQ)` and the
admissible random start `v0A`, the solver's 50-iteration gradient descent
stalls on an eigenvector of `AtA`, the `|H[2][2]| < 1e-10` fallback fires,
and the identity matrix is returned: projecting `srcQ 0 = (1,1)` then lands
9 pixels away from `dstQ 0 = (2,10)` in y — nowhere near the claimed
sub-pixel fit. -/
theorem computeHomography_misfits_nondegenerate_input :
    noThreeCollinear srcQ ∧ noThreeCollinear dstQ ∧
    (∀ i : Fin 9, |v0A i| < 1 / 2) ∧
    computeHomography srcQ dstQ v0A = idMat3 ∧
    |(applyHomography (srcQ 0).1 (srcQ 0).2 (computeHomography srcQ dstQ v0A)).2
        - (dstQ 0).2| = 9 := by
  refine ⟨noColl_srcQ, noColl_dstQ, ?_, computeH_Q_v0A, ?_⟩
  · intro i
    fin_cases i <;> norm_num [v0A, abs_lt]
  · rw [computeH_Q_v0A]
    have hsrc : (srcQ 0) = ((1 : ℝ), (1 : ℝ)) := rfl
    have hdst : (dstQ 0) = ((2 : ℝ), (10 : ℝ)) := rfl
    rw [hsrc, hdst]
    simp only
    rw [applyH_idMat3]
    norm_num

/-- Claim C10: the homography solver is not a deterministic function of its
4 correspondences: for the fixed non-degenerate input `(srcQ, dstQ)`, the two
admissible random start vectors `v0A` and `v0B` produce different matrices
(the identity fallback versus the exact homography `hvec`). -/
theorem computeHomography_depends_on_random_start :
    noThreeCollinear srcQ ∧ noThreeCollinear dstQ ∧
    v0A ≠ v0B ∧
    (∀ i : Fin 9, |v0A i| < 1 / 2 ∧ |v0B i| < 1 / 2) ∧
    computeHomography srcQ dstQ v0A ≠ computeHomography srcQ dstQ v0B := by
  refine ⟨noColl_srcQ, noColl_dstQ, ?_, ?_, ?_⟩
  · intro h
    have h0 := congrFun h 0
    norm_num [v0A, v0B] at h0
  · intro i
    fin_cases i <;> constructor <;> norm_num [v0A, v0B, abs_lt]
  · rw [computeH_Q_v0A, computeH_Q_v0B]
    intro h
    have h0 := congrFun (congrFun h 0) 0
    norm_num [idMat3, reshape3, hvec] at h0

end ChoroMap

end
